import Mathlib

/-!
# ZfpTestUtil: the `zfp_test` harness (`src/main.cpp`)

A shallow embedding of the command-line harness: the configuration record,
`str2mode` / `mode2str`, the argument interpreter `parse_config`, and `main`
(dataset provider, evaluation loop, report).

Conventions of the embedding
* A C string is the sequence of its characters before the terminating NUL, held
  in a `String`.  Reading `s[i]` at the terminator gives the NUL character.
* `exit(k)` is the outcome `Except.error k`; every `exit` of `parse_config` and
  `str2mode` is preceded by `usage()`.
* `int` values are integers in the 32-bit two's-complement range; conversions to
  `int` wrap modulo `2^32`.
* `double` values are modelled by the exact rational they denote (no rounding).
-/

namespace ZfpTestUtil

/-! ## C library functions used by the harness -/

/-- The terminating NUL character of a C string. -/
def NUL : Char := Char.ofNat 0

/-- The character `s[i]` of a C string, for `i` up to and including its length:
the terminator reads as NUL. -/
def char_at (s : String) (i : Nat) : Char := s.data.getD i NUL

/-- The predicate `isspace` of the C locale: space, `\t`, `\n`, `\v`, `\f`, `\r`. -/
def isspace (c : Char) : Bool :=
  c.toNat = 32 || (9 ≤ c.toNat && c.toNat ≤ 13)

/-- The predicate `isdigit`. -/
def isdigit (c : Char) : Bool := 48 ≤ c.toNat && c.toNat ≤ 57

/-- Skips the leading white space of a string. -/
def skip_space : List Char → List Char
  | [] => []
  | c :: cs => if isspace c then skip_space cs else c :: cs

/-- Reads the longest run of decimal digits, accumulating its value onto `acc`;
returns the value, the number of digits read and the unread rest. -/
def read_digits : List Char → Nat → Nat → Nat × Nat × List Char
  | [], acc, k => (acc, k, [])
  | c :: cs, acc, k =>
    if isdigit c then read_digits cs (acc * 10 + (c.toNat - 48)) (k + 1)
    else (acc, k, c :: cs)

/-- Splits an optional sign off the front: `true` for a leading minus sign. -/
def read_sign : List Char → Bool × List Char
  | c :: cs => if c = '-' then (true, cs) else if c = '+' then (false, cs) else (false, c :: cs)
  | [] => (false, [])

/-- Conversion of an integer to `int`: reduction modulo `2^32` into
`[-2^31, 2^31)`. -/
def to_int (z : Int) : Int := (z + 2147483648) % 4294967296 - 2147483648

/-- Saturation to the range of `long` (64 bits), as `strtol` does. -/
def clamp_long (z : Int) : Int :=
  if z < -9223372036854775808 then -9223372036854775808
  else if 9223372036854775807 < z then 9223372036854775807
  else z

/-- The C function `strtol(s, NULL, 10)`: white space, an optional sign, then
decimal digits; `0` when no digit follows. -/
def strtol (s : String) : Int :=
  let t := read_sign (skip_space s.data)
  let v : Int := ((read_digits t.2 0 0).1 : Nat)
  clamp_long (if t.1 then -v else v)

/-- The C function `atoi`: `(int) strtol(s, NULL, 10)`.  A value outside the
range of `int` is undefined by the C standard; here it is what glibc computes. -/
def atoi (s : String) : Int := to_int (strtol s)

/-- Reads an optional decimal exponent `e[+-]ddd`; `0` when there is none. -/
def read_exponent : List Char → Int
  | c :: cs =>
    if c = 'e' || c = 'E' then
      let t := read_sign cs
      let r := read_digits t.2 0 0
      if r.2.1 = 0 then 0 else if t.1 then -(r.1 : Int) else (r.1 : Int)
    else 0
  | [] => 0

/-- The C function `atof` on decimal input: white space, an optional sign,
digits with an optional fraction, an optional exponent; `0` when no digit is
found.  The value is the exact rational denoted (hexadecimal, infinity and NaN
forms and the rounding to `double` are not modelled). -/
def atof (s : String) : ℚ :=
  let t := read_sign (skip_space s.data)
  let ip := read_digits t.2 0 0
  let fp : Nat × Nat × List Char :=
    match ip.2.2 with
    | c :: cs => if c = '.' then read_digits cs ip.1 0 else (ip.1, 0, c :: cs)
    | [] => (ip.1, 0, [])
  if ip.2.1 + fp.2.1 = 0 then 0
  else
    let m : ℚ := (fp.1 : ℚ) * (10 : ℚ) ^ (read_exponent fp.2.2 - (fp.2.1 : Int))
    if t.1 then -m else m

/-! ## Configuration model -/

/-- Modelled from the spec: the enumeration `zfp_mode` of `zfp.h`, which is not
among the sources.  The four tags named in `main.cpp`, and `zfp_mode_other` for
any further value of the enumeration (the `default` branch of `mode2str`). -/
inductive zfp_mode where
  | zfp_mode_expert
  | zfp_mode_fixed_rate
  | zfp_mode_fixed_precision
  | zfp_mode_fixed_accuracy
  | zfp_mode_other
  deriving DecidableEq, Repr

open zfp_mode

/-- Modelled from the spec: the member `arg` of `zfp_config` (`zfp.h`, not among
the sources): the mode-specific arguments, of which one variant is held at a
time, namely the one written last. -/
inductive zfp_arg where
  | rate (rate : ℚ)
  | precision (precision : Int)
  | tolerance (tolerance : ℚ)
  | expert (maxprec maxbits minbits minexp : Int)
  deriving DecidableEq, Repr

/-- Modelled from the spec: the structure `zfp_config` of `zfp.h` (not among the
sources): a mode tag and the mode arguments. -/
structure zfp_config where
  mode : zfp_mode
  arg : zfp_arg
  deriving DecidableEq, Repr

/-- The structure `app_config` with its default member initialisers. -/
structure app_config where
  elements : Int := 256
  simplified_output : Bool := false
  verbose : Bool := false
  data_path : String := ""
  compression_config : zfp_config :=
    { mode := zfp_mode_fixed_rate, arg := zfp_arg.rate (-4) }
  deriving DecidableEq, Repr

/-- The function `str2mode`: the mode tag of a mode name; any other string
prints the usage text and exits with status 1. -/
def str2mode (str : String) : Except Nat zfp_mode :=
  if str = "expert" then .ok zfp_mode_expert
  else if str = "rate" then .ok zfp_mode_fixed_rate
  else if str = "precision" then .ok zfp_mode_fixed_precision
  else if str = "accuracy" then .ok zfp_mode_fixed_accuracy
  else .error 1

/-- The function `mode2str`. -/
def mode2str (mode : zfp_mode) : String :=
  match mode with
  | zfp_mode_expert => "expert"
  | zfp_mode_fixed_accuracy => "accuracy"
  | zfp_mode_fixed_rate => "rate"
  | zfp_mode_fixed_precision => "precision"
  | zfp_mode_other => "invalid"

/-! ## Argument interpreter -/

/-- The statement `with_arg`: at the last token (`i == argc - 1`, no token
remains) usage is printed and the process exits with status 1; otherwise `next`
is `argv[i + 1]`. -/
def with_arg (rest : List String) : Except Nat String :=
  match rest with
  | [] => .error 1
  | next :: _ => .ok next

/-- Replaces the mode tag of the compression configuration. -/
def set_mode (cfg : app_config) (m : zfp_mode) : app_config :=
  { cfg with compression_config := { cfg.compression_config with mode := m } }

/-- Writes a member of the mode arguments of the compression configuration. -/
def set_arg (cfg : app_config) (a : zfp_arg) : app_config :=
  { cfg with compression_config := { cfg.compression_config with arg := a } }

/-- The statement `switch (arg[1])` of `parse_config` on the character
`c = arg[1]`, where `rest` is `argv[i + 1], ..., argv[argc - 1]`; in the case
`'e'` the test `i + 4 >= argc` holds when fewer than four tokens remain. -/
def parse_flag (c : Char) (rest : List String) (cfg : app_config) :
    Except Nat app_config :=
  if c = 'h' then .error 1
  else if c = 's' then .ok { cfg with simplified_output := true }
  else if c = 'v' then .ok { cfg with verbose := true }
  else if c = 'd' then
    match with_arg rest with
    | .error e => .error e
    | .ok next => .ok { cfg with data_path := next }
  else if c = 'n' then
    match with_arg rest with
    | .error e => .error e
    | .ok next => .ok { cfg with elements := atoi next }
  else if c = 'm' then
    match with_arg rest with
    | .error e => .error e
    | .ok next =>
      match str2mode next with
      | .error e => .error e
      | .ok m => .ok (set_mode cfg m)
  else if c = 'r' then
    match with_arg rest with
    | .error e => .error e
    | .ok next => .ok (set_arg cfg (zfp_arg.rate (-(atof next))))
  else if c = 'p' then
    match with_arg rest with
    | .error e => .error e
    | .ok next => .ok (set_arg cfg (zfp_arg.precision (atoi next)))
  else if c = 't' then
    match with_arg rest with
    | .error e => .error e
    | .ok next => .ok (set_arg cfg (zfp_arg.tolerance (atof next)))
  else if c = 'e' then
    match rest with
    | a1 :: a2 :: a3 :: a4 :: _ =>
      .ok (set_arg cfg (zfp_arg.expert (atoi a1) (atoi a2) (atoi a3) (atoi a4)))
    | _ => .error 1
  else .error 1

/-- One iteration of the loop of `parse_config`, at the token `arg = argv[i]`,
where `rest` is `argv[i + 1], ..., argv[argc - 1]`: a token with
`arg[0] == '-'` is dispatched on `arg[1]`, any other token is passed over. -/
def parse_step (arg : String) (rest : List String) (cfg : app_config) :
    Except Nat app_config :=
  if char_at arg 0 = '-' then parse_flag (char_at arg 1) rest cfg else .ok cfg

/-- The loop `for (i = 1; i < argc; i++)` of `parse_config`, from the token
list `argv[i], ..., argv[argc - 1]` on: every token is examined in turn, also
the tokens a flag has read as its values. -/
def parse_loop : List String → app_config → Except Nat app_config
  | [], cfg => .ok cfg
  | arg :: rest, cfg =>
    match parse_step arg rest cfg with
    | .error e => .error e
    | .ok cfg1 => parse_loop rest cfg1

/-- The function `parse_config`: `argv[0]` is not examined; the result is the
configuration, or the exit status of the process. -/
def parse_config (argv : List String) : Except Nat app_config :=
  parse_loop argv.tail {}

/-! ## The run of `main` -/

/-- Modelled from the spec: the compressed container `zfp::const_array1<double>`
of `zfp/constarray1.hpp`, which is not among the sources: an abstract view with a
decompressed value per index and a byte-size query. -/
structure const_array1 where
  get : Nat → ℚ
  size_bytes : Nat

/-- What a run takes from outside the program: the constant `RAND_MAX`, the
result `rand k` of the `k`-th call of `rand()` after seeding, the file system
(`open_file path` is `none` when the file cannot be opened, else the values that
successive extractions `file >> v` yield before the first one that fails), and
the codec that builds the compressed container. -/
structure environment where
  RAND_MAX : Nat
  rand : Nat → Nat
  open_file : String → Option (List ℚ)
  compress : Int → zfp_config → List ℚ → const_array1

/-- The aggregate printed after the evaluation loop.  A field computed by a
floating-point division is `none` when the result is not finite. -/
structure report where
  elements : Int
  mode : String
  orig : Int
  comp : Int
  rate : Option ℚ
  mean : Option ℚ

/-- What the program writes to standard output, item by item; the flag of an
element line and of the summary is `simplified_output`. -/
inductive output where
  | usage_text
  | open_failed
  | element (simplified : Bool) (index : Int) (orig decomp error : ℚ)
  | summary (simplified : Bool) (r : report)

/-- How a run ends: `exit(status)` or `return status` with the output written
so far; termination by the uncaught `std::length_error` of
`std::vector<double>(n)` for a negative `n`; or a store past the end of the
vector, at the given index, which is undefined behaviour. -/
inductive outcome where
  | exited (status : Nat) (out : List output)
  | aborted
  | out_of_bounds (index : Nat)

/-- The loop `for (i = 0; i < cfg->elements; i++)` of synthetic generation from
index `i` on: `data_original[i] = (double) rand() / RAND_MAX * i`. -/
def synth_loop (env : environment) (elements : Int) (i : Nat) (data : List ℚ) : List ℚ :=
  if (i : Int) < elements then
    synth_loop env elements (i + 1) (data.set i ((env.rand i : ℚ) / (env.RAND_MAX : ℚ) * (i : ℚ)))
  else data
termination_by (elements - (i : Int)).toNat
decreasing_by omega

/-- The loop `while (file >> v) { data_original[i] = v; i++; }` over the values
the file yields, from index `i` on.  The store `data_original[i] = v` is not
guarded: at an index past the end of the vector it is reported as an error
carrying that index. -/
def read_values : List ℚ → Nat → List ℚ → Except Nat (List ℚ)
  | [], _, data => .ok data
  | v :: vs, i, data =>
    if i < data.length then read_values vs (i + 1) (data.set i v) else .error i

/-- The state of the evaluation loop: the running sum, the indices visited so
far in order, and the element lines written. -/
structure loop_state where
  abs_error_sum : ℚ
  visited : List Nat
  out : List output

/-- The evaluation loop `for (i = 0; i < n; i++)` from index `i` on. -/
def eval_loop (cfg : app_config) (data : List ℚ) (view : const_array1) (i : Nat)
    (st : loop_state) : loop_state :=
  if (i : Int) < cfg.elements then
    let orig := data.getD i 0
    let decomp := view.get i
    let error := |orig - decomp|
    eval_loop cfg data view (i + 1)
      { abs_error_sum := st.abs_error_sum + error
        visited := st.visited ++ [i]
        out := if cfg.verbose then
                 st.out ++ [output.element cfg.simplified_output ((i : Int) + 1) orig decomp error]
               else st.out }
  else st
termination_by (cfg.elements - (i : Int)).toNat
decreasing_by omega

/-- A floating-point division: `none` when the divisor is zero (the result is
an infinity or NaN), else the exact quotient. -/
def fdiv (a b : ℚ) : Option ℚ := if b = 0 then none else some (a / b)

/-- The summary computed after the loop (lines 181 to 200): the capacity of the
vector is its length, `sizeof(double)` is 8, and both byte sizes are stored in
an `int`. -/
def make_report (cfg : app_config) (data : List ℚ) (view : const_array1)
    (abs_error_sum : ℚ) : report :=
  let orig : Int := to_int ((data.length : Int) * 8)
  let comp : Int := to_int (view.size_bytes : Int)
  { elements := cfg.elements
    mode := mode2str cfg.compression_config.mode
    orig := orig
    comp := comp
    rate := (fdiv (comp : ℚ) (orig : ℚ)).map (fun q => (1 - q) * 100)
    mean := fdiv abs_error_sum (cfg.elements : ℚ) }

/-- The part of `main` after the dataset is produced (lines 153 to 202):
compression, the evaluation loop, the summary, `return 0`. -/
def evaluate (env : environment) (cfg : app_config) (data : List ℚ) : outcome :=
  let view := env.compress cfg.elements cfg.compression_config data
  let st := eval_loop cfg data view 0 { abs_error_sum := 0, visited := [], out := [] }
  .exited 0 (st.out ++
    [output.summary cfg.simplified_output (make_report cfg data view st.abs_error_sum)])

/-- The dataset provider of `main` (lines 128 to 150): the vector of
`cfg->elements` zeros, filled by synthetic generation when `data_path[0]` is NUL
and from the file otherwise.  The result is the dataset, or the way the run
ends before the evaluation. -/
def provide_dataset (env : environment) (cfg : app_config) : Except outcome (List ℚ) :=
  if cfg.elements < 0 then .error .aborted
  else
    let data_original := List.replicate cfg.elements.toNat (0 : ℚ)
    if char_at cfg.data_path 0 = NUL then
      .ok (synth_loop env cfg.elements 0 data_original)
    else
      match env.open_file cfg.data_path with
      | none => .error (.exited 2 [output.open_failed])
      | some vals =>
        match read_values vals 0 data_original with
        | .error i => .error (.out_of_bounds i)
        | .ok data => .ok data

/-- The function `main`. -/
def main (env : environment) (argv : List String) : outcome :=
  match parse_config argv with
  | .error status => .exited status [output.usage_text]
  | .ok cfg =>
    match provide_dataset env cfg with
    | .error o => o
    | .ok data => evaluate env cfg data

/-- The exit status of a run, when it ends by `exit` or by returning. -/
def exit_status : outcome → Option Nat
  | .exited status _ => some status
  | _ => none

/-- The summary of a run: the last item written, when it is a summary. -/
def reported : outcome → Option report
  | .exited _ out =>
    match out.getLast? with
    | some (output.summary _ r) => some r
    | _ => none
  | _ => none

/-- Whether an output item belongs to the report: an element line or the
summary. -/
def is_report_output : output → Bool
  | .element _ _ _ _ _ => true
  | .summary _ _ => true
  | _ => false

/-- A token begins with the given characters. -/
def begins_with (tok : String) (p : List Char) : Prop := p <+: tok.data

instance (tok : String) (p : List Char) : Decidable (begins_with tok p) := by
  unfold begins_with; infer_instance

/-- The string has the form of a decimal integer at its start: after white
space and an optional sign comes a digit. -/
def starts_number (s : String) : Bool :=
  match (read_sign (skip_space s.data)).2 with
  | c :: _ => isdigit c
  | [] => false

/-- The member `arg.expert.minbits`, when the expert arguments are the ones
held. -/
def expert_minbits : zfp_arg → Option Int
  | .expert _ _ minbits _ => some minbits
  | _ => none

/-- The member `arg.expert.maxbits`, when the expert arguments are the ones
held. -/
def expert_maxbits : zfp_arg → Option Int
  | .expert _ maxbits _ _ => some maxbits
  | _ => none

/-- An environment in which every path behaves as `file` (`none`: it cannot be
opened; `some vals`: it opens and holds the values `vals`), `rand()` returns 0,
and the codec reproduces the dataset exactly in a container of `bytes` bytes. -/
def fixed_env (file : Option (List ℚ)) (bytes : Nat) : environment where
  RAND_MAX := 2147483647
  rand := fun _ => 0
  open_file := fun _ => file
  compress := fun _ _ data => { get := fun i => data.getD i 0, size_bytes := bytes }

/-! ## Lemmas on the argument interpreter -/

theorem begins_one_iff {tok : String} {a : Char} (ha : a ≠ NUL) :
    begins_with tok [a] ↔ char_at tok 0 = a := by
  unfold begins_with char_at
  generalize tok.data = l
  cases l with
  | nil => simp; exact fun h => ha h.symm
  | cons c cs => simp [eq_comm]

theorem begins_two_iff {tok : String} {a b : Char} (hb : b ≠ NUL) :
    begins_with tok [a, b] ↔ char_at tok 0 = a ∧ char_at tok 1 = b := by
  unfold begins_with char_at
  generalize tok.data = l
  match l with
  | [] => simp; exact fun _ h => hb h.symm
  | [c] => simp; exact fun _ h => hb h.symm
  | c :: d :: cs => simp [eq_comm]

/-- Without a digit at its start a string converts to zero. -/
theorem atoi_eq_zero_of_not_number {s : String} (h : starts_number s = false) :
    atoi s = 0 := by
  unfold starts_number at h
  unfold atoi strtol
  generalize (read_sign (skip_space s.data)) = t at h ⊢
  obtain ⟨sg, l⟩ := t
  have hz : (read_digits l 0 0).1 = 0 := by
    cases l with
    | nil => rfl
    | cons c cs =>
      simp only at h
      simp [read_digits, h]
  simp only [hz]
  cases sg <;> decide

theorem char_at_zero_of_begins {tok : String} {a : Char} {p : List Char}
    (h : begins_with tok (a :: p)) : char_at tok 0 = a := by
  obtain ⟨t, ht⟩ := h
  simp [char_at, ← ht]

theorem char_at_one_of_begins {tok : String} {a b : Char} {p : List Char}
    (h : begins_with tok (a :: b :: p)) : char_at tok 1 = b := by
  obtain ⟨t, ht⟩ := h
  simp [char_at, ← ht]

theorem not_dash_of_not_begins {tok : String} (h : ¬ begins_with tok ['-']) :
    ¬ char_at tok 0 = '-' := by
  unfold begins_with at h
  unfold char_at
  revert h
  generalize tok.data = l
  intro h h0
  cases l with
  | nil => revert h0; decide
  | cons c cs =>
    simp at h0
    subst h0
    exact h ⟨cs, rfl⟩

/-- Every exit of `str2mode` has status 1. -/
theorem str2mode_error {s : String} {e : Nat} (h : str2mode s = .error e) : e = 1 := by
  unfold str2mode at h
  split_ifs at h
  cases h; rfl

/-- Every exit of the flag dispatch has status 1. -/
theorem parse_flag_error {c : Char} {rest : List String} {cfg : app_config} {e : Nat}
    (h : parse_flag c rest cfg = .error e) : e = 1 := by
  unfold parse_flag at h
  by_cases hh : c = 'h'
  · rw [if_pos hh] at h; cases h; rfl
  rw [if_neg hh] at h
  by_cases hs : c = 's'
  · rw [if_pos hs] at h; cases h
  rw [if_neg hs] at h
  by_cases hv : c = 'v'
  · rw [if_pos hv] at h; cases h
  rw [if_neg hv] at h
  have hw : ∀ {x : Except Nat String}, x = with_arg rest →
      ∀ f : String → Except Nat app_config, (∀ s, f s = .error e → e = 1) →
      (match x with
        | .error e => (Except.error e : Except Nat app_config)
        | .ok next => f next) = .error e → e = 1 := by
    intro x hx f hf hm
    cases rest with
    | nil => simp [with_arg] at hx; subst hx; cases hm; rfl
    | cons a l => simp [with_arg] at hx; subst hx; exact hf a hm
  by_cases hd : c = 'd'
  · rw [if_pos hd] at h
    exact hw rfl (fun next => .ok { cfg with data_path := next }) (fun s hs => by cases hs) h
  rw [if_neg hd] at h
  by_cases hn : c = 'n'
  · rw [if_pos hn] at h
    exact hw rfl (fun next => .ok { cfg with elements := atoi next }) (fun s hs => by cases hs) h
  rw [if_neg hn] at h
  by_cases hm : c = 'm'
  · rw [if_pos hm] at h
    refine hw rfl (fun next => match str2mode next with
      | .error e => .error e
      | .ok m => .ok (set_mode cfg m)) (fun s hs => ?_) h
    cases hq : str2mode s with
    | error e1 => simp only [hq] at hs; cases hs; exact str2mode_error hq
    | ok m => simp only [hq] at hs; cases hs
  rw [if_neg hm] at h
  by_cases hr : c = 'r'
  · rw [if_pos hr] at h
    exact hw rfl (fun next => .ok (set_arg cfg (zfp_arg.rate (-(atof next)))))
      (fun s hs => by cases hs) h
  rw [if_neg hr] at h
  by_cases hp : c = 'p'
  · rw [if_pos hp] at h
    exact hw rfl (fun next => .ok (set_arg cfg (zfp_arg.precision (atoi next))))
      (fun s hs => by cases hs) h
  rw [if_neg hp] at h
  by_cases ht : c = 't'
  · rw [if_pos ht] at h
    exact hw rfl (fun next => .ok (set_arg cfg (zfp_arg.tolerance (atof next))))
      (fun s hs => by cases hs) h
  rw [if_neg ht] at h
  by_cases he : c = 'e'
  · rw [if_pos he] at h
    split at h
    · cases h
    · cases h; rfl
  rw [if_neg he] at h
  cases h; rfl

/-- Every exit of one loop iteration has status 1. -/
theorem parse_step_error {arg : String} {rest : List String} {cfg : app_config} {e : Nat}
    (h : parse_step arg rest cfg = .error e) : e = 1 := by
  unfold parse_step at h
  split_ifs at h
  exact parse_flag_error h

/-- Every exit of the loop has status 1. -/
theorem parse_loop_error {args : List String} {cfg : app_config} {e : Nat}
    (h : parse_loop args cfg = .error e) : e = 1 := by
  induction args generalizing cfg with
  | nil => cases h
  | cons a l ih =>
    unfold parse_loop at h
    cases hs : parse_step a l cfg with
    | error e1 => simp only [hs] at h; cases h; exact parse_step_error hs
    | ok c1 => simp only [hs] at h; exact ih h

/-- A token at which the loop iteration exits, whatever the configuration, makes
the whole loop exit with status 1. -/
theorem parse_loop_exit_at (pre : List String) (tok : String) (rest : List String)
    (hstep : ∀ cfg, parse_step tok rest cfg = .error 1) (cfg : app_config) :
    parse_loop (pre ++ tok :: rest) cfg = .error 1 := by
  induction pre generalizing cfg with
  | nil => simp [parse_loop, hstep]
  | cons a l ih =>
    have hl : (a :: l) ++ tok :: rest = a :: (l ++ tok :: rest) := rfl
    rw [hl]
    unfold parse_loop
    cases hs : parse_step a (l ++ tok :: rest) cfg with
    | error e1 => simp only; rw [parse_step_error hs]
    | ok c1 => simp only; exact ih c1

/-- A flag that takes a value exits at the last token. -/
theorem parse_step_value_flag_last {tok : String} {c : Char}
    (hc : c ∈ ['d', 'n', 'm', 'r', 'p', 't']) (hb : begins_with tok ['-', c])
    (cfg : app_config) : parse_step tok [] cfg = .error 1 := by
  unfold parse_step
  rw [if_pos (char_at_zero_of_begins hb), char_at_one_of_begins hb]
  simp only [List.mem_cons, List.mem_singleton, List.not_mem_nil, or_false] at hc
  rcases hc with h | h | h | h | h | h <;> subst h <;> rfl

/-- The flag `-e` exits when fewer than four tokens follow it. -/
theorem parse_step_expert_short {tok : String} {rest : List String}
    (hb : begins_with tok ['-', 'e']) (hlen : rest.length < 4) (cfg : app_config) :
    parse_step tok rest cfg = .error 1 := by
  unfold parse_step
  rw [if_pos (char_at_zero_of_begins hb), char_at_one_of_begins hb]
  match rest, hlen with
  | [], _ => rfl
  | [_], _ => rfl
  | [_, _], _ => rfl
  | [_, _, _], _ => rfl
  | _ :: _ :: _ :: _ :: _, h => simp at h; omega

/-- The flag dispatch succeeds in nine ways only, one per recognised flag
character other than `h`: the lemma names the tokens read and the configuration
written in each. -/
theorem parse_flag_ok {c : Char} {rest : List String} {cfg c1 : app_config}
    (h : parse_flag c rest cfg = .ok c1) :
    (c = 's' ∧ c1 = { cfg with simplified_output := true }) ∨
    (c = 'v' ∧ c1 = { cfg with verbose := true }) ∨
    (c = 'd' ∧ ∃ next l, rest = next :: l ∧ c1 = { cfg with data_path := next }) ∨
    (c = 'n' ∧ ∃ next l, rest = next :: l ∧ c1 = { cfg with elements := atoi next }) ∨
    (c = 'm' ∧ ∃ next l m, rest = next :: l ∧ str2mode next = .ok m ∧ c1 = set_mode cfg m) ∨
    (c = 'r' ∧ ∃ next l, rest = next :: l ∧ c1 = set_arg cfg (zfp_arg.rate (-(atof next)))) ∨
    (c = 'p' ∧ ∃ next l, rest = next :: l ∧ c1 = set_arg cfg (zfp_arg.precision (atoi next))) ∨
    (c = 't' ∧ ∃ next l, rest = next :: l ∧ c1 = set_arg cfg (zfp_arg.tolerance (atof next))) ∨
    (c = 'e' ∧ ∃ a1 a2 a3 a4 l, rest = a1 :: a2 :: a3 :: a4 :: l ∧
      c1 = set_arg cfg (zfp_arg.expert (atoi a1) (atoi a2) (atoi a3) (atoi a4))) := by
  unfold parse_flag at h
  by_cases hh : c = 'h'
  · rw [if_pos hh] at h; cases h
  rw [if_neg hh] at h
  by_cases hs : c = 's'
  · rw [if_pos hs] at h; cases h; exact Or.inl ⟨hs, rfl⟩
  rw [if_neg hs] at h
  by_cases hv : c = 'v'
  · rw [if_pos hv] at h; cases h; exact Or.inr (Or.inl ⟨hv, rfl⟩)
  rw [if_neg hv] at h
  have hw : ∀ f : String → Except Nat app_config,
      (match with_arg rest with
        | .error e => (Except.error e : Except Nat app_config)
        | .ok next => f next) = .ok c1 → ∃ next l, rest = next :: l ∧ f next = .ok c1 := by
    intro f hm
    cases rest with
    | nil => simp [with_arg] at hm
    | cons a l => exact ⟨a, l, rfl, hm⟩
  by_cases hd : c = 'd'
  · rw [if_pos hd] at h
    obtain ⟨next, l, hr, hf⟩ := hw (fun next => .ok { cfg with data_path := next }) h
    cases hf
    exact Or.inr (Or.inr (Or.inl ⟨hd, next, l, hr, rfl⟩))
  rw [if_neg hd] at h
  by_cases hn : c = 'n'
  · rw [if_pos hn] at h
    obtain ⟨next, l, hr, hf⟩ := hw (fun next => .ok { cfg with elements := atoi next }) h
    cases hf
    exact Or.inr (Or.inr (Or.inr (Or.inl ⟨hn, next, l, hr, rfl⟩)))
  rw [if_neg hn] at h
  by_cases hm : c = 'm'
  · rw [if_pos hm] at h
    obtain ⟨next, l, hr, hf⟩ := hw (fun next => match str2mode next with
      | .error e => .error e
      | .ok m => .ok (set_mode cfg m)) h
    refine Or.inr (Or.inr (Or.inr (Or.inr (Or.inl ⟨hm, next, l, ?_⟩))))
    cases hq : str2mode next with
    | error e1 => simp only [hq] at hf; cases hf
    | ok m => simp only [hq] at hf; cases hf; exact ⟨m, hr, rfl, rfl⟩
  rw [if_neg hm] at h
  by_cases hr : c = 'r'
  · rw [if_pos hr] at h
    obtain ⟨next, l, hrest, hf⟩ :=
      hw (fun next => .ok (set_arg cfg (zfp_arg.rate (-(atof next))))) h
    cases hf
    exact Or.inr (Or.inr (Or.inr (Or.inr (Or.inr (Or.inl ⟨hr, next, l, hrest, rfl⟩)))))
  rw [if_neg hr] at h
  by_cases hp : c = 'p'
  · rw [if_pos hp] at h
    obtain ⟨next, l, hrest, hf⟩ :=
      hw (fun next => .ok (set_arg cfg (zfp_arg.precision (atoi next)))) h
    cases hf
    exact Or.inr (Or.inr (Or.inr (Or.inr (Or.inr (Or.inr (Or.inl ⟨hp, next, l, hrest, rfl⟩))))))
  rw [if_neg hp] at h
  by_cases ht : c = 't'
  · rw [if_pos ht] at h
    obtain ⟨next, l, hrest, hf⟩ :=
      hw (fun next => .ok (set_arg cfg (zfp_arg.tolerance (atof next)))) h
    cases hf
    exact Or.inr (Or.inr (Or.inr (Or.inr (Or.inr (Or.inr (Or.inr
      (Or.inl ⟨ht, next, l, hrest, rfl⟩)))))))
  rw [if_neg ht] at h
  by_cases he : c = 'e'
  · rw [if_pos he] at h
    split at h
    · rename_i a1 a2 a3 a4 l
      cases h
      exact Or.inr (Or.inr (Or.inr (Or.inr (Or.inr (Or.inr (Or.inr
        (Or.inr ⟨he, a1, a2, a3, a4, l, rfl, rfl⟩)))))))
    · cases h
  rw [if_neg he] at h
  cases h

/-- The flag dispatch exits at `h` and at every character that is not a flag. -/
theorem parse_flag_unknown {c : Char} (rest : List String) (cfg : app_config)
    (hc : c = 'h' ∨ c ∉ ['s', 'v', 'd', 'n', 'm', 'r', 'p', 't', 'e']) :
    parse_flag c rest cfg = .error 1 := by
  unfold parse_flag
  by_cases hh : c = 'h'
  · rw [if_pos hh]
  rcases hc with hc | hc
  · exact absurd hc hh
  simp only [List.mem_cons, List.mem_singleton, List.not_mem_nil, or_false, not_or] at hc
  obtain ⟨h1, h2, h3, h4, h5, h6, h7, h8, h9⟩ := hc
  rw [if_neg hh, if_neg h1, if_neg h2, if_neg h3, if_neg h4, if_neg h5, if_neg h6, if_neg h7,
    if_neg h8, if_neg h9]

/-- A loop iteration that succeeds gives the same configuration when further
tokens are appended to the argument list. -/
theorem parse_step_append {tok : String} {rest : List String} {cfg c1 : app_config}
    (extra : List String) (h : parse_step tok rest cfg = .ok c1) :
    parse_step tok (rest ++ extra) cfg = .ok c1 := by
  unfold parse_step at h ⊢
  by_cases h0 : char_at tok 0 = '-'
  · rw [if_pos h0] at h ⊢
    generalize char_at tok 1 = c at h ⊢
    rcases parse_flag_ok h with ⟨rfl, rfl⟩ | ⟨rfl, rfl⟩ | ⟨rfl, next, l, rfl, rfl⟩ |
      ⟨rfl, next, l, rfl, rfl⟩ | ⟨rfl, next, l, m, rfl, hm, rfl⟩ | ⟨rfl, next, l, rfl, rfl⟩ |
      ⟨rfl, next, l, rfl, rfl⟩ | ⟨rfl, next, l, rfl, rfl⟩ |
      ⟨rfl, a1, a2, a3, a4, l, rfl, rfl⟩
    · rfl
    · rfl
    · rfl
    · rfl
    · have : parse_flag 'm' (next :: l ++ extra) cfg =
          (match str2mode next with
            | .error e => .error e
            | .ok m => .ok (set_mode cfg m)) := rfl
      rw [this, hm]
    · rfl
    · rfl
    · rfl
    · rfl
  · rw [if_neg h0] at h ⊢
    exact h

/-- When the loop succeeds on an argument list, the loop on the list with
further tokens appended continues on those tokens from the same configuration. -/
theorem parse_loop_append (args extra : List String) (cfg c : app_config)
    (h : parse_loop args cfg = .ok c) :
    parse_loop (args ++ extra) cfg = parse_loop extra c := by
  induction args generalizing cfg with
  | nil => cases h; rfl
  | cons a l ih =>
    unfold parse_loop at h
    cases hs : parse_step a l cfg with
    | error e1 => simp only [hs] at h; cases h
    | ok c1 =>
      simp only [hs] at h
      have hl : (a :: l) ++ extra = a :: (l ++ extra) := rfl
      rw [hl, parse_loop]
      simp only [parse_step_append extra hs]
      exact ih c1 h

/-- A token that does not begin with `-` is passed over. -/
theorem parse_step_skip {tok : String} (rest : List String) (cfg : app_config)
    (h : ¬ begins_with tok ['-']) : parse_step tok rest cfg = .ok cfg := by
  unfold parse_step
  rw [if_neg (not_dash_of_not_begins h)]

/-- A mode that `str2mode` returns is the tag of the name given. -/
theorem str2mode_ok {s : String} {m : zfp_mode} (h : str2mode s = .ok m) :
    (s = "expert" ∧ m = zfp_mode_expert) ∨ (s = "rate" ∧ m = zfp_mode_fixed_rate) ∨
    (s = "precision" ∧ m = zfp_mode_fixed_precision) ∨
    (s = "accuracy" ∧ m = zfp_mode_fixed_accuracy) := by
  unfold str2mode at h
  by_cases h1 : s = "expert"
  · rw [if_pos h1] at h; cases h; exact Or.inl ⟨h1, rfl⟩
  rw [if_neg h1] at h
  by_cases h2 : s = "rate"
  · rw [if_pos h2] at h; cases h; exact Or.inr (Or.inl ⟨h2, rfl⟩)
  rw [if_neg h2] at h
  by_cases h3 : s = "precision"
  · rw [if_pos h3] at h; cases h; exact Or.inr (Or.inr (Or.inl ⟨h3, rfl⟩))
  rw [if_neg h3] at h
  by_cases h4 : s = "accuracy"
  · rw [if_pos h4] at h; cases h; exact Or.inr (Or.inr (Or.inr ⟨h4, rfl⟩))
  rw [if_neg h4] at h
  cases h

/-- A mode that `str2mode` returns is one of the four named tags. -/
theorem str2mode_mem {s : String} {m : zfp_mode} (h : str2mode s = .ok m) :
    m ∈ [zfp_mode_expert, zfp_mode_fixed_rate, zfp_mode_fixed_precision,
      zfp_mode_fixed_accuracy] := by
  rcases str2mode_ok h with ⟨_, rfl⟩ | ⟨_, rfl⟩ | ⟨_, rfl⟩ | ⟨_, rfl⟩ <;> decide

/-- A loop iteration keeps the mode tag among the four named tags. -/
theorem parse_step_mode {tok : String} {rest : List String} {cfg c1 : app_config}
    (h : parse_step tok rest cfg = .ok c1)
    (hm : cfg.compression_config.mode ∈ [zfp_mode_expert, zfp_mode_fixed_rate,
      zfp_mode_fixed_precision, zfp_mode_fixed_accuracy]) :
    c1.compression_config.mode ∈ [zfp_mode_expert, zfp_mode_fixed_rate,
      zfp_mode_fixed_precision, zfp_mode_fixed_accuracy] := by
  unfold parse_step at h
  by_cases h0 : char_at tok 0 = '-'
  · rw [if_pos h0] at h
    rcases parse_flag_ok h with ⟨_, rfl⟩ | ⟨_, rfl⟩ | ⟨_, next, l, _, rfl⟩ |
      ⟨_, next, l, _, rfl⟩ | ⟨_, next, l, m, _, hs, rfl⟩ | ⟨_, next, l, _, rfl⟩ |
      ⟨_, next, l, _, rfl⟩ | ⟨_, next, l, _, rfl⟩ | ⟨_, a1, a2, a3, a4, l, _, rfl⟩
    · exact hm
    · exact hm
    · exact hm
    · exact hm
    · exact str2mode_mem hs
    · exact hm
    · exact hm
    · exact hm
    · exact hm
  · rw [if_neg h0] at h
    cases h
    exact hm

/-- The loop keeps the mode tag among the four named tags. -/
theorem parse_loop_mode {args : List String} {cfg c : app_config}
    (h : parse_loop args cfg = .ok c)
    (hm : cfg.compression_config.mode ∈ [zfp_mode_expert, zfp_mode_fixed_rate,
      zfp_mode_fixed_precision, zfp_mode_fixed_accuracy]) :
    c.compression_config.mode ∈ [zfp_mode_expert, zfp_mode_fixed_rate,
      zfp_mode_fixed_precision, zfp_mode_fixed_accuracy] := by
  induction args generalizing cfg with
  | nil => cases h; exact hm
  | cons a l ih =>
    unfold parse_loop at h
    cases hs : parse_step a l cfg with
    | error e1 => simp only [hs] at h; cases h
    | ok c1 => simp only [hs] at h; exact ih h (parse_step_mode hs hm)

/-- When the loop succeeds on an argument list, every token of the list has
been examined: the iteration at that token ran on some configuration and
succeeded, and the loop went on with the tokens after it. -/
theorem parse_loop_examines (pre : List String) (tok : String) (rest : List String)
    (cfg c : app_config) (h : parse_loop (pre ++ tok :: rest) cfg = .ok c) :
    ∃ c0 c1, parse_step tok rest c0 = .ok c1 ∧ parse_loop rest c1 = .ok c := by
  induction pre generalizing cfg with
  | nil =>
    simp only [List.nil_append] at h
    unfold parse_loop at h
    cases hs : parse_step tok rest cfg with
    | error e1 => simp only [hs] at h; cases h
    | ok c1 => simp only [hs] at h; exact ⟨cfg, c1, hs, h⟩
  | cons a l ih =>
    have hl : (a :: l) ++ tok :: rest = a :: (l ++ tok :: rest) := rfl
    rw [hl] at h
    unfold parse_loop at h
    cases hs : parse_step a (l ++ tok :: rest) cfg with
    | error e1 => simp only [hs] at h; cases h
    | ok c1 => simp only [hs] at h; exact ih c1 h

/-! ## Lemmas on the dataset provider -/

theorem set_length_append (pre : List ℚ) (x v : ℚ) (tl : List ℚ) :
    (pre ++ x :: tl).set pre.length v = pre ++ v :: tl := by
  induction pre with
  | nil => rfl
  | cons a l ih => simp [ih]

/-- When the values left in the file fit into the slots left in the vector, the
reading loop stores them in order and leaves the remaining slots untouched. -/
theorem read_values_fits (vals pre : List ℚ) (m : Nat) (h : vals.length ≤ m) :
    read_values vals pre.length (pre ++ List.replicate m 0) =
      .ok (pre ++ vals ++ List.replicate (m - vals.length) 0) := by
  induction vals generalizing pre m with
  | nil => simp [read_values]
  | cons v vs ih =>
    obtain ⟨k, rfl⟩ : ∃ k, m = k + 1 := ⟨m - 1, by simp at h; omega⟩
    have hlt : pre.length < (pre ++ List.replicate (k + 1) (0 : ℚ)).length := by simp
    unfold read_values
    rw [if_pos hlt, List.replicate_succ, set_length_append]
    have hk : vs.length ≤ k := by simp at h; omega
    have := ih (pre ++ [v]) k hk
    simp only [List.length_append, List.length_singleton, List.append_assoc,
      List.singleton_append] at this
    rw [this]
    simp

/-- When the file holds more values than slots are left in the vector, the
reading loop stores past the end of the vector, at the index equal to its
length. -/
theorem read_values_past_end (vals pre : List ℚ) (m : Nat) (h : m < vals.length) :
    read_values vals pre.length (pre ++ List.replicate m 0) = .error (pre.length + m) := by
  induction vals generalizing pre m with
  | nil => simp at h
  | cons v vs ih =>
    unfold read_values
    cases m with
    | zero => simp
    | succ k =>
      have hlt : pre.length < (pre ++ List.replicate (k + 1) (0 : ℚ)).length := by simp
      rw [if_pos hlt, List.replicate_succ, set_length_append]
      have hk : k < vs.length := by simp at h; omega
      have := ih (pre ++ [v]) k hk
      simp only [List.length_append, List.length_singleton, List.append_assoc,
        List.singleton_append] at this
      rw [this]
      congr 1
      omega

/-! ## Lemmas on the evaluation and the report -/

/-- A run that reaches the evaluation returns 0. -/
theorem exit_status_evaluate (env : environment) (cfg : app_config) (data : List ℚ) :
    exit_status (evaluate env cfg data) = some 0 := rfl

/-- A run that reaches the evaluation ends its output with the summary. -/
theorem reported_evaluate (env : environment) (cfg : app_config) (data : List ℚ) :
    reported (evaluate env cfg data) =
      some (make_report cfg data (env.compress cfg.elements cfg.compression_config data)
        (eval_loop cfg data (env.compress cfg.elements cfg.compression_config data) 0
          { abs_error_sum := 0, visited := [], out := [] }).abs_error_sum) := by
  simp [reported, evaluate]

/-- Synthetic generation keeps the length of the vector. -/
theorem synth_loop_length (env : environment) (elements : Int) (i : Nat) (data : List ℚ) :
    (synth_loop env elements i data).length = data.length := by
  generalize hk : (elements - (i : Int)).toNat = k
  induction k generalizing i data with
  | zero =>
    rw [synth_loop, if_neg (by omega)]
  | succ k ih =>
    rw [synth_loop, if_pos (by omega), ih (i + 1) _ (by omega), List.length_set]

/-- The evaluation loop started at index `i` with `k` indices left visits
`i, ..., i + k - 1` in order, adds their absolute errors to the running sum, and
writes one line per index when verbose. -/
theorem eval_loop_from (cfg : app_config) (data : List ℚ) (view : const_array1) (N : Nat)
    (hN : cfg.elements = (N : Int)) (k i : Nat) (hk : i + k = N) (st : loop_state) :
    eval_loop cfg data view i st =
      { abs_error_sum :=
          st.abs_error_sum + ∑ j in Finset.Ico i N, |data.getD j 0 - view.get j|
        visited := st.visited ++ List.range' i k
        out := st.out ++
          if cfg.verbose then
            (List.range' i k).map (fun (j : Nat) =>
              output.element cfg.simplified_output ((j : Int) + 1) (data.getD j 0) (view.get j)
                |data.getD j 0 - view.get j|)
          else [] } := by
  induction k generalizing i st with
  | zero =>
    have hi : i = N := by omega
    subst hi
    rw [eval_loop, if_neg (by omega)]
    simp
  | succ k ih =>
    have hlt : i < N := by omega
    rw [eval_loop, if_pos (by omega), ih (i + 1) (by omega), Finset.sum_eq_sum_Ico_succ_bot hlt]
    cases hv : cfg.verbose <;> simp [List.range', add_assoc]

/-- The conversion to `int` keeps a byte count below `2^31`. -/
theorem to_int_small (z : Int) (h0 : 0 ≤ z) (h1 : z < 2147483648) : to_int z = z := by
  unfold to_int
  omega

/-- A run that parses to a non-negative element count and an absent data path
reports as original size the conversion to `int` of eight times the count. -/
theorem reported_orig_synthetic (env : environment) (argv : List String) (cfg : app_config)
    (N : Nat) (hparse : parse_config argv = .ok cfg) (hN : cfg.elements = (N : Int))
    (hpath : char_at cfg.data_path 0 = NUL) :
    (reported (main env argv)).map report.orig = some (to_int ((N : Int) * 8)) := by
  have hd : provide_dataset env cfg =
      .ok (synth_loop env cfg.elements 0 (List.replicate cfg.elements.toNat 0)) := by
    unfold provide_dataset
    rw [if_neg (by omega)]
    simp only [if_pos hpath]
  unfold main
  rw [hparse]
  simp only [hd]
  rw [reported_evaluate]
  simp only [Option.map_some', make_report, synth_loop_length, List.length_replicate, hN,
    Int.toNat_ofNat]

/-- A run that ends in the dataset provider writes no summary. -/
theorem reported_provide_error {env : environment} {cfg : app_config} {o : outcome}
    (h : provide_dataset env cfg = .error o) : reported o = none := by
  unfold provide_dataset at h
  by_cases h1 : cfg.elements < 0
  · rw [if_pos h1] at h; cases h; rfl
  rw [if_neg h1] at h
  by_cases h2 : char_at cfg.data_path 0 = NUL
  · simp only [if_pos h2] at h; cases h
  simp only [if_neg h2] at h
  cases hopen : env.open_file cfg.data_path with
  | none => simp only [hopen] at h; cases h; rfl
  | some vals =>
    simp only [hopen] at h
    cases hr : read_values vals 0 (List.replicate cfg.elements.toNat 0) with
    | error i => simp only [hr] at h; cases h; rfl
    | ok data => simp only [hr] at h; cases h

/-- The summary of a run reports the name of the mode of the parsed
configuration. -/
theorem reported_mode {env : environment} {argv : List String} {cfg : app_config} {r : report}
    (hparse : parse_config argv = .ok cfg) (hr : reported (main env argv) = some r) :
    r.mode = mode2str cfg.compression_config.mode := by
  unfold main at hr
  rw [hparse] at hr
  cases hd : provide_dataset env cfg with
  | error o =>
    simp only [hd] at hr
    rw [reported_provide_error hd] at hr
    cases hr
  | ok data =>
    simp only [hd] at hr
    rw [reported_evaluate] at hr
    cases hr
    rfl

/-- Synthetic generation started at index `i` writes `rand(j) / RAND_MAX * j` at
every index `j` from `i` up to the element count and leaves the other indices
as they are. -/
theorem synth_loop_get (env : environment) (N : Nat) (k i : Nat) (hk : i + k = N)
    (data : List ℚ) (hlen : data.length = N) (j : Nat) :
    (synth_loop env (N : Int) i data)[j]? =
      if i ≤ j ∧ j < N then some ((env.rand j : ℚ) / (env.RAND_MAX : ℚ) * (j : ℚ))
      else data[j]? := by
  induction k generalizing i data with
  | zero =>
    rw [synth_loop, if_neg (by omega), if_neg (by omega)]
  | succ k ih =>
    rw [synth_loop, if_pos (by omega), ih (i + 1) (by omega) _ (by rw [List.length_set, hlen])]
    by_cases hj : i = j
    · subst hj
      rw [if_neg (by omega), if_pos (by omega), List.getElem?_set_self (by omega)]
    · rw [List.getElem?_set_ne hj]
      by_cases hc : i ≤ j ∧ j < N
      · rw [if_pos hc, if_pos (by omega)]
      · rw [if_neg hc, if_neg (by omega)]

/-- The decimal string `4.0` converts to the number 4. -/
theorem atof_four : atof "4.0" = 4 := by
  simp [atof, skip_space, read_sign, read_digits, isspace, isdigit, read_exponent]
  norm_num

/-! ## Claims -/

/-- C1: when the last argument begins with one of the flags `-d`, `-n`, `-m`,
`-r`, `-p`, `-t`, or an argument beginning with `-e` has fewer than four tokens
after it, `parse_config` exits with status 1 and returns no configuration, and
the run writes the usage text only (no report). -/
theorem parse_config_missing_value (prog : String) (args : List String)
    (h : (∃ tok c, args.getLast? = some tok ∧ c ∈ ['d', 'n', 'm', 'r', 'p', 't'] ∧
            begins_with tok ['-', c]) ∨
         (∃ i tok, args[i]? = some tok ∧ begins_with tok ['-', 'e'] ∧
            args.length - (i + 1) < 4)) :
    parse_config (prog :: args) = .error 1 ∧
      ∀ env, main env (prog :: args) = .exited 1 [output.usage_text] := by
  have key : parse_config (prog :: args) = .error 1 := by
    unfold parse_config
    simp only [List.tail_cons]
    rcases h with ⟨tok, c, hlast, hc, hb⟩ | ⟨i, tok, hi, hb, hlen⟩
    · obtain ⟨pre, hpre⟩ : ∃ pre, args = pre ++ [tok] := by
        refine ⟨args.dropLast, ?_⟩
        have hne : args ≠ [] := by
          intro h0; subst h0; simp at hlast
        have := List.dropLast_append_getLast hne
        rw [List.getLast?_eq_getLast _ hne] at hlast
        simp only [Option.some.injEq] at hlast
        rw [hlast] at this
        exact this.symm
      rw [hpre]
      exact parse_loop_exit_at pre tok [] (parse_step_value_flag_last hc hb) _
    · have hlt : i < args.length := by
        rcases Nat.lt_or_ge i args.length with h1 | h1
        · exact h1
        · rw [List.getElem?_eq_none h1] at hi; cases hi
      have hget : args[i] = tok := by
        rw [List.getElem?_eq_getElem hlt] at hi
        exact Option.some.inj hi
      have hsplit : args = args.take i ++ tok :: args.drop (i + 1) := by
        rw [← hget, ← List.drop_eq_getElem_cons hlt, List.take_append_drop]
      rw [hsplit]
      refine parse_loop_exit_at _ tok _ (parse_step_expert_short hb ?_) _
      rw [List.length_drop]
      exact hlen
  refine ⟨key, fun env => ?_⟩
  unfold main
  rw [key]

/-- C1, at the argument list `-n 8 -r`, which ends in `-r`. -/
theorem parse_config_missing_value_witness :
    parse_config ["zfp_test", "-n", "8", "-r"] = .error 1 ∧
      ∀ env, main env ["zfp_test", "-n", "8", "-r"] = .exited 1 [output.usage_text] :=
  parse_config_missing_value "zfp_test" ["-n", "8", "-r"]
    (Or.inl ⟨"-r", 'r', rfl, by decide, by decide⟩)

/-- C2: `str2mode` maps the four mode names to their tags, and on every other
string (the match is exact and case-sensitive) it returns no mode and exits with
status 1. -/
theorem str2mode_spec :
    str2mode "expert" = .ok zfp_mode_expert ∧
    str2mode "rate" = .ok zfp_mode_fixed_rate ∧
    str2mode "precision" = .ok zfp_mode_fixed_precision ∧
    str2mode "accuracy" = .ok zfp_mode_fixed_accuracy ∧
    ∀ s : String, s ∉ ["expert", "rate", "precision", "accuracy"] →
      str2mode s = .error 1 := by
  refine ⟨rfl, rfl, rfl, rfl, fun s hs => ?_⟩
  simp only [List.mem_cons, List.mem_singleton, List.not_mem_nil, or_false, not_or] at hs
  unfold str2mode
  rw [if_neg hs.1, if_neg hs.2.1, if_neg hs.2.2.1, if_neg hs.2.2.2]

/-- C2, at the string `Expert`, which differs from a mode name by case only. -/
theorem str2mode_spec_witness :
    "Expert" ∉ ["expert", "rate", "precision", "accuracy"] ∧ str2mode "Expert" = .error 1 :=
  ⟨by decide, str2mode_spec.2.2.2.2 "Expert" (by decide)⟩

/-- C3, as stated, fails: the value `-5` of `-n` is itself examined as a flag,
and the run exits with status 1. -/
theorem parse_config_count_negative :
    parse_config ["zfp_test", "-n", "-5"] = .error 1 := by
  rfl

/-- C3, amended: for every value token `v` that does not begin with `-`, or that
begins with `-s` or `-v`, parsing `[program, "-n", v]` succeeds; the element
count is `atoi v`, which is 0 when `v` does not start with a number; the value
token, examined as a flag in its turn, sets simplified output when it begins
with `-s` and verbosity when it begins with `-v`; the other fields keep their
defaults. -/
theorem parse_config_count (prog v : String)
    (hv : ¬ begins_with v ['-'] ∨ begins_with v ['-', 's'] ∨ begins_with v ['-', 'v']) :
    parse_config [prog, "-n", v] =
      .ok { elements := atoi v
            simplified_output := decide (begins_with v ['-', 's'])
            verbose := decide (begins_with v ['-', 'v'])
            data_path := ""
            compression_config := { mode := zfp_mode_fixed_rate, arg := zfp_arg.rate (-4) } } ∧
    (starts_number v = false → atoi v = 0) := by
  refine ⟨?_, atoi_eq_zero_of_not_number⟩
  have h1 : ∀ cfg : app_config,
      parse_step "-n" [v] cfg = .ok { cfg with elements := atoi v } := fun _ => rfl
  have hs : (NUL ≠ 's') ∧ (NUL ≠ 'v') ∧ (NUL ≠ '-') := by decide
  unfold parse_config
  simp only [List.tail_cons, parse_loop, h1]
  rcases hv with h | h | h
  · have hns : ¬ begins_with v ['-', 's'] := fun hb =>
      h ((begins_one_iff (Ne.symm hs.2.2)).2 (char_at_zero_of_begins hb))
    have hnv : ¬ begins_with v ['-', 'v'] := fun hb =>
      h ((begins_one_iff (Ne.symm hs.2.2)).2 (char_at_zero_of_begins hb))
    simp [parse_step, not_dash_of_not_begins h, hns, hnv]
  · have hnv : ¬ begins_with v ['-', 'v'] := fun hb => by
      have := char_at_one_of_begins h
      rw [char_at_one_of_begins hb] at this
      revert this; decide
    simp [parse_step, char_at_zero_of_begins h, char_at_one_of_begins h, parse_flag, h, hnv]
  · have hns : ¬ begins_with v ['-', 's'] := fun hb => by
      have := char_at_one_of_begins h
      rw [char_at_one_of_begins hb] at this
      revert this; decide
    simp [parse_step, char_at_zero_of_begins h, char_at_one_of_begins h, parse_flag, h, hns]

/-- C3 amended, at the value `12abc`. -/
theorem parse_config_count_witness :
    parse_config ["zfp_test", "-n", "12abc"] =
      .ok { elements := 12
            simplified_output := false
            verbose := false
            data_path := ""
            compression_config := { mode := zfp_mode_fixed_rate, arg := zfp_arg.rate (-4) } } :=
  (parse_config_count "zfp_test" "12abc" (Or.inl (by decide))).1

/-- C4: for value tokens `a`, `b`, `c`, `d` that do not begin with `-`, parsing
`[program, "-e", a, b, c, d]` succeeds with the expert fields set in the order
`maxprec`, `maxbits`, `minbits`, `minexp` to `atoi a`, `atoi b`, `atoi c`,
`atoi d`, and element count, output mode, verbosity, data path and codec mode
at their defaults. -/
theorem parse_config_expert (prog a b c d : String)
    (ha : ¬ begins_with a ['-']) (hb : ¬ begins_with b ['-'])
    (hc : ¬ begins_with c ['-']) (hd : ¬ begins_with d ['-']) :
    parse_config [prog, "-e", a, b, c, d] =
      .ok { elements := 256
            simplified_output := false
            verbose := false
            data_path := ""
            compression_config :=
              { mode := zfp_mode_fixed_rate
                arg := zfp_arg.expert (atoi a) (atoi b) (atoi c) (atoi d) } } := by
  have h1 : ∀ cfg : app_config, parse_step "-e" [a, b, c, d] cfg =
      .ok (set_arg cfg (zfp_arg.expert (atoi a) (atoi b) (atoi c) (atoi d))) := fun _ => rfl
  have hskip : ∀ (t : String) (rest : List String) (cfg : app_config),
      ¬ begins_with t ['-'] → parse_step t rest cfg = .ok cfg := by
    intro t rest cfg ht
    unfold parse_step
    rw [if_neg (not_dash_of_not_begins ht)]
  unfold parse_config
  simp only [List.tail_cons, parse_loop, h1, hskip a _ _ ha, hskip b _ _ hb, hskip c _ _ hc,
    hskip d _ _ hd]
  rfl

/-- C4, at the argument list `-e 16 64 8 3`. -/
theorem parse_config_expert_witness :
    parse_config ["zfp_test", "-e", "16", "64", "8", "3"] =
      .ok { elements := 256
            simplified_output := false
            verbose := false
            data_path := ""
            compression_config :=
              { mode := zfp_mode_fixed_rate, arg := zfp_arg.expert 16 64 8 3 } } :=
  parse_config_expert "zfp_test" "16" "64" "8" "3"
    (by decide) (by decide) (by decide) (by decide)

/-- C5 fails on the code: with element count 1 and a file that holds the two
values `1 2`, the reading loop does not stop after one value; it stores the
second value at index 1, past the end of the one-element vector. -/
theorem main_file_longer_than_count :
    main (fixed_env (some [1, 2]) 8) ["zfp_test", "-n", "1", "-d", "data.txt"] = .out_of_bounds 1 := by
  rfl

/-- C6: for an element count `N` and a file that opens and holds `k ≤ N`
values, the file-backed dataset is the values of the file followed by `N - k`
zeros: it has length `N`, holds the `i`-th value of the file at each index
`i < k` and zero at each index `k ≤ i < N`. -/
theorem provide_dataset_file (env : environment) (cfg : app_config) (vals : List ℚ) (N : Nat)
    (hN : cfg.elements = (N : Int)) (hpath : char_at cfg.data_path 0 ≠ NUL)
    (hopen : env.open_file cfg.data_path = some vals) (hk : vals.length ≤ N) :
    provide_dataset env cfg = .ok (vals ++ List.replicate (N - vals.length) 0) ∧
    (vals ++ List.replicate (N - vals.length) (0 : ℚ)).length = N ∧
    (∀ i, i < vals.length →
      (vals ++ List.replicate (N - vals.length) (0 : ℚ))[i]? = vals[i]?) ∧
    (∀ i, vals.length ≤ i → i < N →
      (vals ++ List.replicate (N - vals.length) (0 : ℚ))[i]? = some 0) := by
  refine ⟨?_, ?_, ?_, ?_⟩
  · unfold provide_dataset
    have h0 : ¬ cfg.elements < 0 := by rw [hN]; omega
    rw [if_neg h0, if_neg hpath, hopen, hN]
    have := read_values_fits vals [] N hk
    simp only [List.length_nil, List.nil_append] at this
    simp only [Int.toNat_ofNat, this]
  · simp; omega
  · intro i hi
    rw [List.getElem?_append_left hi]
  · intro i hki hiN
    rw [List.getElem?_append_right hki, List.getElem?_replicate, if_pos (by omega)]

/-- C6, at the file `1.0 2.0 3.0` with the arguments `-n 3 -m rate -r 8`: the
dataset is `[1, 2, 3]`. -/
theorem provide_dataset_file_witness :
    provide_dataset (fixed_env (some [1, 2, 3]) 8)
      { elements := 3
        data_path := "data.txt"
        compression_config := { mode := zfp_mode_fixed_rate, arg := zfp_arg.rate (-8) } } =
      .ok [1, 2, 3] :=
  (provide_dataset_file (fixed_env (some [1, 2, 3]) 8)
    { elements := 3
      data_path := "data.txt"
      compression_config := { mode := zfp_mode_fixed_rate, arg := zfp_arg.rate (-8) } }
    [1, 2, 3] 3 rfl (by decide) rfl (by decide)).1

/-- C7, as stated, fails for the empty path: after `-d ""` the path reads as
absent (`data_path[0]` is NUL), no file is opened, the dataset is synthetic, and
the run returns 0 with a summary, although no file can be opened at all. -/
theorem main_empty_path_no_file :
    exit_status (main (fixed_env none 8) ["zfp_test", "-d", ""]) = some 0 ∧
    (reported (main (fixed_env none 8) ["zfp_test", "-d", ""])).isSome = true := by
  have hp : parse_config ["zfp_test", "-d", ""] = .ok {} := rfl
  have hd : provide_dataset (fixed_env none 8) {} =
      .ok (synth_loop (fixed_env none 8) 256 0 (List.replicate 256 0)) := rfl
  unfold main
  rw [hp]
  simp only [hd]
  rw [exit_status_evaluate, reported_evaluate]
  exact ⟨rfl, rfl⟩

/-- C7, amended: when `parse_config` succeeds with a non-negative element count
and a non-empty data path that cannot be opened, the run exits with status 2
and its whole output is the failure message: no element line and no summary. -/
theorem main_file_not_opened (env : environment) (argv : List String) (cfg : app_config)
    (hparse : parse_config argv = .ok cfg) (hn : 0 ≤ cfg.elements)
    (hpath : char_at cfg.data_path 0 ≠ NUL)
    (hopen : env.open_file cfg.data_path = none) :
    main env argv = .exited 2 [output.open_failed] := by
  have hd : provide_dataset env cfg = .error (.exited 2 [output.open_failed]) := by
    unfold provide_dataset
    rw [if_neg (not_lt.mpr hn)]
    simp only [if_neg hpath, hopen]
  unfold main
  rw [hparse]
  simp only [hd]

/-- C7 amended, at the arguments `-d missing.txt` where no file can be opened. -/
theorem main_file_not_opened_witness :
    main (fixed_env none 8) ["zfp_test", "-d", "missing.txt"] =
      .exited 2 [output.open_failed] :=
  main_file_not_opened (fixed_env none 8) ["zfp_test", "-d", "missing.txt"]
    { data_path := "missing.txt" } rfl (by decide) (by decide) rfl

/-- C8: parsing an argument list with no arguments gives the same configuration
as parsing the default prompt `-n 256 -m rate -r 4.0`: element count 256, human
output, not verbose, no data path, fixed-rate mode with the rate stored negated
as -4. -/
theorem parse_config_default (prog : String) :
    parse_config [prog] = parse_config [prog, "-n", "256", "-m", "rate", "-r", "4.0"] ∧
    parse_config [prog] =
      .ok { elements := 256
            simplified_output := false
            verbose := false
            data_path := ""
            compression_config := { mode := zfp_mode_fixed_rate, arg := zfp_arg.rate (-4) } } := by
  have hn : ∀ (rest : List String) (cfg : app_config),
      parse_step "-n" ("256" :: rest) cfg = .ok { cfg with elements := 256 } := fun _ _ => rfl
  have hm : ∀ (rest : List String) (cfg : app_config),
      parse_step "-m" ("rate" :: rest) cfg = .ok (set_mode cfg zfp_mode_fixed_rate) :=
    fun _ _ => rfl
  have hr : ∀ (rest : List String) (cfg : app_config),
      parse_step "-r" ("4.0" :: rest) cfg = .ok (set_arg cfg (zfp_arg.rate (-(atof "4.0")))) :=
    fun _ _ => rfl
  have h1 : ∀ (rest : List String) (cfg : app_config), parse_step "256" rest cfg = .ok cfg :=
    fun _ _ => rfl
  have h2 : ∀ (rest : List String) (cfg : app_config), parse_step "rate" rest cfg = .ok cfg :=
    fun _ _ => rfl
  have h3 : ∀ (rest : List String) (cfg : app_config), parse_step "4.0" rest cfg = .ok cfg :=
    fun _ _ => rfl
  refine ⟨?_, rfl⟩
  unfold parse_config
  simp only [List.tail_cons, parse_loop, hn, hm, hr, h1, h2, h3, atof_four]
  rfl

/-- C9: for an element count `N > 0`, every dataset and every decompressed view
(whatever the codec returns), the evaluation loop visits exactly the indices
`0, ..., N - 1`, once each and in order, writing one line per index when
verbose; the run returns 0 and its summary reports the element count `N` and
the mean `(sum over i < N of |original[i] - decompressed[i]|) / N`, in exact
arithmetic. -/
theorem evaluate_spec (env : environment) (cfg : app_config) (data : List ℚ) (N : Nat)
    (hN : cfg.elements = (N : Int)) (hpos : 0 < N) :
    (eval_loop cfg data (env.compress cfg.elements cfg.compression_config data) 0
        { abs_error_sum := 0, visited := [], out := [] }).visited = List.range N ∧
    (cfg.verbose = true →
      (eval_loop cfg data (env.compress cfg.elements cfg.compression_config data) 0
        { abs_error_sum := 0, visited := [], out := [] }).out =
      (List.range N).map (fun (i : Nat) =>
        output.element cfg.simplified_output ((i : Int) + 1) (data.getD i 0)
          ((env.compress cfg.elements cfg.compression_config data).get i)
          |data.getD i 0 - (env.compress cfg.elements cfg.compression_config data).get i|)) ∧
    exit_status (evaluate env cfg data) = some 0 ∧
    ∃ r, reported (evaluate env cfg data) = some r ∧ r.elements = (N : Int) ∧
      r.mean = some ((∑ i in Finset.range N,
        |data.getD i 0 - (env.compress cfg.elements cfg.compression_config data).get i|) / N) := by
  have hloop := eval_loop_from cfg data
    (env.compress cfg.elements cfg.compression_config data) N hN N 0 (by omega)
    { abs_error_sum := 0, visited := [], out := [] }
  refine ⟨?_, ?_, rfl, ?_⟩
  · rw [hloop]
    simp [List.range_eq_range']
  · intro hv
    rw [hloop]
    simp [List.range_eq_range', hv]
  · refine ⟨_, reported_evaluate env cfg data, ?_, ?_⟩
    · exact hN
    · have hne : ((N : Int) : ℚ) ≠ 0 := by
        have : (N : ℚ) ≠ 0 := Nat.cast_ne_zero.mpr (by omega)
        simpa using this
      rw [hloop]
      simp only [make_report, fdiv, hN, if_neg hne, zero_add, Finset.range_eq_Ico]
      simp

/-- C9, at a verbose run over the dataset `[1, 2, 3]` with element count 3. -/
theorem evaluate_spec_witness :
    (eval_loop { elements := 3, verbose := true } [1, 2, 3]
        ((fixed_env none 8).compress 3 { mode := zfp_mode_fixed_rate, arg := zfp_arg.rate (-4) }
          [1, 2, 3]) 0
        { abs_error_sum := 0, visited := [], out := [] }).visited = List.range 3 :=
  (evaluate_spec (fixed_env none 8) { elements := 3, verbose := true } [1, 2, 3] 3 rfl
    (by decide)).1

/-- C10 fails on the code: with `-n 268435456` (element count `2^28`) the byte
count `2^28 * 8 = 2^31` does not fit the `int` it is stored in, and the reported
original size is `-2147483648`, not `2147483648`. -/
theorem reported_orig_overflows (env : environment) :
    (reported (main env ["zfp_test", "-n", "268435456"])).map report.orig =
      some (-2147483648) := by
  have hparse : parse_config ["zfp_test", "-n", "268435456"] =
      .ok { elements := 268435456 } := by
    have hv : atoi "268435456" = 268435456 := by decide
    have h1 : ∀ cfg : app_config, parse_step "-n" ["268435456"] cfg =
        .ok { cfg with elements := atoi "268435456" } := fun _ => rfl
    have h2 : ∀ cfg : app_config, parse_step "268435456" [] cfg = .ok cfg := fun _ => rfl
    unfold parse_config
    simp only [List.tail_cons, parse_loop, h1, h2, hv]
  rw [reported_orig_synthetic env _ _ 268435456 hparse rfl (by decide)]
  decide

/-- C11: `mode2str` inverts `str2mode`: a string on which `str2mode` returns a
mode is the name `mode2str` gives that mode, each of the four named modes is
what `str2mode` returns on its name, and every other mode value has the name
`invalid`. -/
theorem mode2str_str2mode :
    (∀ s m, str2mode s = .ok m → mode2str m = s) ∧
    (∀ m, m ∈ [zfp_mode_expert, zfp_mode_fixed_rate, zfp_mode_fixed_precision,
        zfp_mode_fixed_accuracy] → str2mode (mode2str m) = .ok m) ∧
    (∀ m, m ∉ [zfp_mode_expert, zfp_mode_fixed_rate, zfp_mode_fixed_precision,
        zfp_mode_fixed_accuracy] → mode2str m = "invalid") := by
  refine ⟨fun s m h => ?_, fun m hm => ?_, fun m hm => ?_⟩
  · rcases str2mode_ok h with ⟨rfl, rfl⟩ | ⟨rfl, rfl⟩ | ⟨rfl, rfl⟩ | ⟨rfl, rfl⟩ <;> rfl
  · cases m
    · rfl
    · rfl
    · rfl
    · rfl
    · exact absurd hm (by decide)
  · cases m
    · exact absurd (by decide) hm
    · exact absurd (by decide) hm
    · exact absurd (by decide) hm
    · exact absurd (by decide) hm
    · rfl

/-- C11, at the string `rate` and at the fixed-accuracy mode. -/
theorem mode2str_str2mode_witness :
    mode2str zfp_mode_fixed_rate = "rate" ∧
    str2mode (mode2str zfp_mode_fixed_accuracy) = .ok zfp_mode_fixed_accuracy ∧
    mode2str zfp_mode_other = "invalid" :=
  ⟨mode2str_str2mode.1 "rate" zfp_mode_fixed_rate rfl,
   mode2str_str2mode.2.1 zfp_mode_fixed_accuracy (by decide),
   mode2str_str2mode.2.2 zfp_mode_other (by decide)⟩

/-- C12: when some argument begins with `-` and its second character is `h` or
is none of `s v d n m r p t e` (the bare token `-`, whose second character is
the terminator, included), `parse_config` exits with status 1 and returns no
configuration; and every exit of `parse_config`, on any argument list, has
status 1. -/
theorem parse_config_bad_flag (prog : String) (args : List String)
    (h : ∃ tok, tok ∈ args ∧ begins_with tok ['-'] ∧
      (char_at tok 1 = 'h' ∨ char_at tok 1 ∉ ['s', 'v', 'd', 'n', 'm', 'r', 'p', 't', 'e'])) :
    parse_config (prog :: args) = .error 1 ∧
    ∀ (argv : List String) (e : Nat), parse_config argv = .error e → e = 1 := by
  refine ⟨?_, fun argv e he => parse_loop_error he⟩
  obtain ⟨tok, hmem, hb, hc⟩ := h
  obtain ⟨pre, rest, rfl⟩ := List.append_of_mem hmem
  have h0 : char_at tok 0 = '-' := char_at_zero_of_begins hb
  unfold parse_config
  simp only [List.tail_cons]
  refine parse_loop_exit_at pre tok rest (fun cfg => ?_) _
  unfold parse_step
  rw [if_pos h0]
  exact parse_flag_unknown rest cfg hc

/-- C12, at the argument list `-n 4 -`, which holds the bare token `-`. -/
theorem parse_config_bad_flag_witness :
    parse_config ["zfp_test", "-n", "4", "-"] = .error 1 :=
  (parse_config_bad_flag "zfp_test" ["-n", "4", "-"]
    ⟨"-", by decide, by decide, Or.inr (by decide)⟩).1

/-- C13: a first argument `t` that does not begin with `-` is a no-op: parsing
`[program, t] ++ args` gives the outcome of parsing `[program] ++ args`, the
same configuration or the same exit; and an argument list in which no argument
begins with `-` yields the default configuration. -/
theorem parse_config_non_flag (prog : String) :
    (∀ (t : String) (args : List String), ¬ begins_with t ['-'] →
      parse_config ([prog, t] ++ args) = parse_config ([prog] ++ args)) ∧
    (∀ args : List String, (∀ tok, tok ∈ args → ¬ begins_with tok ['-']) →
      parse_config (prog :: args) =
        .ok { elements := 256
              simplified_output := false
              verbose := false
              data_path := ""
              compression_config :=
                { mode := zfp_mode_fixed_rate, arg := zfp_arg.rate (-4) } }) := by
  constructor
  · intro t args ht
    unfold parse_config
    simp only [List.cons_append, List.nil_append, List.tail_cons]
    rw [parse_loop]
    simp only [parse_step_skip args _ ht]
  · intro args hall
    unfold parse_config
    simp only [List.tail_cons]
    have key : ∀ cfg : app_config, parse_loop args cfg = .ok cfg := by
      induction args with
      | nil => intro cfg; rfl
      | cons a l ih =>
        intro cfg
        rw [parse_loop]
        simp only [parse_step_skip l cfg (hall a (List.mem_cons_self a l))]
        exact ih (fun tok htok => hall tok (List.mem_cons_of_mem a htok)) cfg
    exact key _

/-- C13, at the token `data` in front of the arguments `-n 5`. -/
theorem parse_config_non_flag_witness :
    parse_config (["zfp_test", "data"] ++ ["-n", "5"]) =
      parse_config (["zfp_test"] ++ ["-n", "5"]) :=
  (parse_config_non_flag "zfp_test").1 "data" ["-n", "5"] (by decide)

/-- C14 fails on the code: the usage text gives the order
`-e <maxprec> <minbits> <maxbits> <minexp>`, but with `-e 16 8 64 3` the code
stores the second value, 8, in `maxbits` and the third, 64, in `minbits`. -/
theorem parse_config_expert_order :
    parse_config ["zfp_test", "-e", "16", "8", "64", "3"] =
      .ok { elements := 256
            simplified_output := false
            verbose := false
            data_path := ""
            compression_config :=
              { mode := zfp_mode_fixed_rate, arg := zfp_arg.expert 16 8 64 3 } } ∧
    expert_maxbits (zfp_arg.expert 16 8 64 3) = some 8 ∧
    expert_minbits (zfp_arg.expert 16 8 64 3) = some 64 := by
  exact ⟨rfl, rfl, rfl⟩

/-- C15: for an element count `N > 0`, an absent data path and random draws
`rand i` between 0 and `RAND_MAX` (which is positive), the dataset is synthetic,
of length `N`, with the value `rand i / RAND_MAX * i` at each index `i < N`; so
the value at index 0 is 0 and the value at each index `i < N` lies between 0
and `i`, in exact arithmetic. -/
theorem provide_dataset_synthetic (env : environment) (cfg : app_config) (N : Nat)
    (hN : cfg.elements = (N : Int)) (hpos : 0 < N) (hpath : char_at cfg.data_path 0 = NUL)
    (hmax : 0 < env.RAND_MAX) (hdraw : ∀ i, env.rand i ≤ env.RAND_MAX) :
    ∃ data, provide_dataset env cfg = .ok data ∧ data.length = N ∧
      (∀ i, i < N →
        data[i]? = some ((env.rand i : ℚ) / (env.RAND_MAX : ℚ) * (i : ℚ))) ∧
      data[0]? = some 0 ∧
      (∀ (i : ℕ) (x : ℚ), i < N → data[i]? = some x → 0 ≤ x ∧ x ≤ (i : ℚ)) := by
  have hd : provide_dataset env cfg =
      .ok (synth_loop env (N : Int) 0 (List.replicate N 0)) := by
    unfold provide_dataset
    rw [if_neg (by omega)]
    simp only [if_pos hpath, hN, Int.toNat_ofNat]
  have hget : ∀ i, i < N → (synth_loop env (N : Int) 0 (List.replicate N 0))[i]? =
      some ((env.rand i : ℚ) / (env.RAND_MAX : ℚ) * (i : ℚ)) := by
    intro i hi
    rw [synth_loop_get env N N 0 (by omega) _ (by simp) i, if_pos ⟨Nat.zero_le i, hi⟩]
  refine ⟨_, hd, ?_, hget, ?_, ?_⟩
  · rw [synth_loop_length, List.length_replicate]
  · rw [hget 0 hpos]
    simp
  · intro i x hi hx
    rw [hget i hi] at hx
    cases hx
    have hM : (0 : ℚ) < (env.RAND_MAX : ℚ) := by exact_mod_cast hmax
    have hr0 : (0 : ℚ) ≤ (env.rand i : ℚ) := Nat.cast_nonneg _
    have hr1 : (env.rand i : ℚ) ≤ (env.RAND_MAX : ℚ) := by exact_mod_cast hdraw i
    have hi0 : (0 : ℚ) ≤ (i : ℚ) := Nat.cast_nonneg _
    have hq0 : (0 : ℚ) ≤ (env.rand i : ℚ) / (env.RAND_MAX : ℚ) := div_nonneg hr0 hM.le
    have hq1 : (env.rand i : ℚ) / (env.RAND_MAX : ℚ) ≤ 1 := (div_le_one hM).mpr hr1
    constructor
    · exact mul_nonneg hq0 hi0
    · calc (env.rand i : ℚ) / (env.RAND_MAX : ℚ) * (i : ℚ) ≤ 1 * (i : ℚ) :=
            mul_le_mul_of_nonneg_right hq1 hi0
        _ = (i : ℚ) := one_mul _

/-- C15, at the default configuration (256 elements, no data path) in an
environment whose draws are all 0. -/
theorem provide_dataset_synthetic_witness :
    ∃ data, provide_dataset (fixed_env none 8) {} = .ok data ∧ data.length = 256 ∧
      (∀ i, i < 256 → data[i]? =
        some ((((fixed_env none 8).rand i : ℕ) : ℚ) / ((fixed_env none 8).RAND_MAX : ℚ) *
          (i : ℚ))) ∧
      data[0]? = some 0 ∧
      (∀ (i : ℕ) (x : ℚ), i < 256 → data[i]? = some x → 0 ≤ x ∧ x ≤ (i : ℚ)) :=
  provide_dataset_synthetic (fixed_env none 8) {} 256 rfl (by decide) (by decide)
    (by decide) (fun _ => Nat.zero_le _)

/-- C16: when `parse_config` succeeds on an argument list with the
configuration `c` and `v` does not begin with `-`, parsing the list followed by
`-n v` succeeds with `c` in which the element count is `atoi v` and every other
field is unchanged, whatever `-n` flags came before. -/
theorem parse_config_append_count (prog : String) (args : List String) (v : String)
    (c : app_config) (h : parse_config (prog :: args) = .ok c)
    (hv : ¬ begins_with v ['-']) :
    parse_config ((prog :: args) ++ ["-n", v]) = .ok { c with elements := atoi v } := by
  unfold parse_config at h ⊢
  simp only [List.cons_append, List.tail_cons] at h ⊢
  rw [parse_loop_append args ["-n", v] _ c h]
  have h1 : parse_step "-n" [v] c = .ok { c with elements := atoi v } := rfl
  simp only [parse_loop, h1, parse_step_skip [] _ hv]

/-- C16, at the arguments `-n 5 -s` followed by `-n 7`. -/
theorem parse_config_append_count_witness :
    parse_config (["zfp_test", "-n", "5", "-s"] ++ ["-n", "7"]) =
      .ok { elements := 7
            simplified_output := true
            verbose := false
            data_path := ""
            compression_config := { mode := zfp_mode_fixed_rate, arg := zfp_arg.rate (-4) } } :=
  parse_config_append_count "zfp_test" ["-n", "5", "-s"] "7"
    { elements := 5, simplified_output := true } rfl (by decide)

/-- C17: on every argument list on which `parse_config` succeeds, the mode of
the configuration is one of expert, fixed-rate, fixed-precision and
fixed-accuracy; its name is one of `expert`, `rate`, `precision`, `accuracy`
and not `invalid`, and so is the mode name in the summary of the run. -/
theorem parse_config_mode_named (argv : List String) (cfg : app_config)
    (h : parse_config argv = .ok cfg) :
    cfg.compression_config.mode ∈ [zfp_mode_expert, zfp_mode_fixed_rate,
      zfp_mode_fixed_precision, zfp_mode_fixed_accuracy] ∧
    mode2str cfg.compression_config.mode ∈ ["expert", "rate", "precision", "accuracy"] ∧
    mode2str cfg.compression_config.mode ≠ "invalid" ∧
    ∀ (env : environment) (r : report), reported (main env argv) = some r →
      r.mode ∈ ["expert", "rate", "precision", "accuracy"] ∧ r.mode ≠ "invalid" := by
  have hm : cfg.compression_config.mode ∈ [zfp_mode_expert, zfp_mode_fixed_rate,
      zfp_mode_fixed_precision, zfp_mode_fixed_accuracy] :=
    parse_loop_mode h (by decide)
  have hname : mode2str cfg.compression_config.mode ∈
        ["expert", "rate", "precision", "accuracy"] ∧
      mode2str cfg.compression_config.mode ≠ "invalid" := by
    revert hm
    generalize cfg.compression_config.mode = m
    intro hm
    cases m
    · exact ⟨by decide, by decide⟩
    · exact ⟨by decide, by decide⟩
    · exact ⟨by decide, by decide⟩
    · exact ⟨by decide, by decide⟩
    · exact absurd hm (by decide)
  refine ⟨hm, hname.1, hname.2, fun env r hr => ?_⟩
  rw [reported_mode h hr]
  exact hname

/-- C17, at the arguments `-m accuracy`. -/
theorem parse_config_mode_named_witness :
    mode2str zfp_mode_fixed_accuracy ≠ "invalid" :=
  (parse_config_mode_named ["zfp_test", "-m", "accuracy"]
    (set_mode {} zfp_mode_fixed_accuracy) rfl).2.2.1

/-- C18: `parse_config` does not skip the value tokens of a flag.  On a
successful parse the loop iteration has run at every argument; the value of `-d`,
when it begins with `-`, is dispatched as a flag on its second character, after
it was stored as the data path; so `[program, "-d", "-v"]` gives the data path
`-v` with verbosity set; and `[program, "-e", a, b, c, d]` exits with status 1
whenever `d` is `-` followed by a digit. -/
theorem parse_config_examines_values (prog : String) :
    (∀ (pre : List String) (tok : String) (rest : List String) (c : app_config),
      parse_config (prog :: (pre ++ tok :: rest)) = .ok c →
      ∃ c0 c1, parse_step tok rest c0 = .ok c1 ∧ parse_loop rest c1 = .ok c) ∧
    (∀ v : String, begins_with v ['-'] →
      parse_config [prog, "-d", v] = parse_flag (char_at v 1) [] { data_path := v }) ∧
    parse_config [prog, "-d", "-v"] =
      .ok { elements := 256
            simplified_output := false
            verbose := true
            data_path := "-v"
            compression_config := { mode := zfp_mode_fixed_rate, arg := zfp_arg.rate (-4) } } ∧
    (∀ a b c d : String, begins_with d ['-'] → isdigit (char_at d 1) = true →
      parse_config [prog, "-e", a, b, c, d] = .error 1) := by
  refine ⟨fun pre tok rest c h => ?_, fun v hv => ?_, rfl, fun a b c d hd hdig => ?_⟩
  · unfold parse_config at h
    simp only [List.tail_cons] at h
    exact parse_loop_examines pre tok rest _ c h
  · have h1 : ∀ cfg : app_config,
        parse_step "-d" [v] cfg = .ok { cfg with data_path := v } := fun _ => rfl
    unfold parse_config
    simp only [List.tail_cons, parse_loop, h1]
    unfold parse_step
    rw [if_pos (char_at_zero_of_begins hv)]
    cases parse_flag (char_at v 1) [] { data_path := v } <;> rfl
  · have hc : char_at d 1 ∉ ['s', 'v', 'd', 'n', 'm', 'r', 'p', 't', 'e'] := by
      intro hmem
      simp only [List.mem_cons, List.mem_singleton, List.not_mem_nil, or_false] at hmem
      rcases hmem with h | h | h | h | h | h | h | h | h <;> rw [h] at hdig <;>
        exact absurd hdig (by decide)
    have hstep : ∀ cfg : app_config, parse_step d [] cfg = .error 1 := by
      intro cfg
      unfold parse_step
      rw [if_pos (char_at_zero_of_begins hd)]
      exact parse_flag_unknown [] cfg (Or.inr hc)
    unfold parse_config
    simp only [List.tail_cons]
    exact parse_loop_exit_at ["-e", a, b, c] d [] hstep _

/-- C18, at the argument list `-e 1 2 3 -4`, whose last value is negative. -/
theorem parse_config_examines_values_witness :
    parse_config ["zfp_test", "-e", "1", "2", "3", "-4"] = .error 1 :=
  (parse_config_examines_values "zfp_test").2.2.2 "1" "2" "3" "-4" (by decide) (by decide)

end ZfpTestUtil
